import Mathlib

/-!
Verification of the tool-augmented conversation loop of `client.py`
(`MCPClient.process_query`, `MCPClient.openai_chat`, `MCPClient.chat_loop`).

External collaborators (the OpenAI chat completion call, the MCP session's
`call_tool`, and Python's `json.loads`) are modelled as oracle functions in an
`Env` record; the repository's own logic (the directive regex, argument-decode
fallback, history threading, transcript assembly, prompt construction, and the
interactive loop) is transcribed from the source.
-/

namespace MCPClient

/-- JSON values, as produced by Python's `json.loads`: the decoded argument
payload of a directive.  An empty Python dict `{}` is `Json.obj []`. -/
inductive Json where
  | null : Json
  | bool (b : Bool) : Json
  | num (n : Int) : Json
  | str (s : String) : Json
  | arr (elems : List Json) : Json
  | obj (fields : List (String × Json)) : Json

/-- Chat message, a dict `{"role": ..., "content": ...}` in the source. -/
structure Message where
  role : String
  content : String
deriving DecidableEq

/-- Tool descriptor as built in `process_query` lines 81-85: name, description,
and the input schema, whose `properties` map each parameter name to a record
with a `type` field (modelled as the type string, in insertion order). -/
structure Tool where
  name : String
  description : String
  input_schema : List (String × String)
deriving DecidableEq

/-- Result of `session.call_tool`: the `.content` field, stringified by the
loop (`str(result.content)`). -/
structure ToolResult where
  content : String
deriving DecidableEq

/-!
Directive parser: `re.findall(r"\[TOOL_CALL: (\w+) (.+?)\]", text)`, line 98-99.

Python `re` semantics transcribed for this pattern:
the literal prefix `[TOOL_CALL: `, a maximal nonempty run of word characters
(captured as the tool name; backtracking can never help because the following
literal is a space, which is not a word character), one literal space, then a
non-greedy `.+?` — at least one character, none of them a newline (`.` does
not match `\n`) — up to the first possible closing `]`.  `findall` scans left
to right, restarting after each match (or one character along on failure).
-/

/-- Word character for `\w` (ASCII range): letters, digits, underscore. -/
def isWordChar (c : Char) : Bool := c.isAlphanum || c = '_'

/-- Characters of the literal prefix of the directive pattern. -/
def headerChars : List Char := "[TOOL_CALL: ".toList

/-- Match a literal character sequence at the front of the input, returning
the remainder on success. -/
def stripLit : List Char → List Char → Option (List Char)
  | [], cs => some cs
  | _ :: _, [] => none
  | p :: ps, c :: cs => if p = c then stripLit ps cs else none

/-- Maximal leading run of word characters (`\w+`, greedy) and the rest. -/
def takeWord : List Char → List Char × List Char
  | [] => ([], [])
  | c :: cs =>
    if isWordChar c then
      let r := takeWord cs
      (c :: r.1, r.2)
    else ([], c :: cs)

/-- Non-greedy `(.+?)\]`: `first` is the first payload character (at least one
is required); the payload extends, newline-free, up to the first `]` that can
close the match.  Returns the payload and the characters after the `]`. -/
def scanPayload : Char → List Char → Option (List Char × List Char)
  | first, rest =>
    if first = '\n' then none
    else
      match rest with
      | [] => none
      | c :: cs =>
        if c = ']' then some ([first], cs)
        else
          match scanPayload c cs with
          | some (p, r) => some (first :: p, r)
          | none => none

/-- Attempt the whole directive pattern at the current position.  On success,
returns the captured (name, raw argument text) and the remaining input. -/
def matchAt (cs : List Char) : Option (String × String × List Char) :=
  match stripLit headerChars cs with
  | none => none
  | some r1 =>
    match takeWord r1 with
    | (w, r2) =>
      if w = [] then none
      else
        match r2 with
        | ' ' :: c :: r4 =>
          match scanPayload c r4 with
          | some (p, r5) => some (⟨w⟩, ⟨p⟩, r5)
          | none => none
        | _ => none

/-- Fuelled scanning loop of `re.findall`: try a match at each position, emit
the capture groups and continue after the match, else advance one character. -/
def findallFuel : Nat → List Char → List (String × String)
  | 0, _ => []
  | _ + 1, [] => []
  | fuel + 1, c :: cs =>
    match matchAt (c :: cs) with
    | some (n, a, rest) => (n, a) :: findallFuel fuel rest
    | none => findallFuel fuel cs

/-- Directive extraction, `re.findall(tool_call_pattern, text_response)`:
all `(tool_name, tool_args_str)` captures, in left-to-right order. -/
def findall (cs : List Char) : List (String × String) := findallFuel cs.length cs

/-!
Prompt construction, `openai_chat` lines 52-66: a system message is built from
the fixed instruction text plus, when `available_tools` is truthy (neither
`None` nor the empty list), a rendered tool block; the system message is
prepended to the caller's message list.  The actual completion request
(`openai.ChatCompletion.acreate`, first choice's content) is an external
capability, modelled by the `complete` oracle below.
-/

/-- Fixed instruction text of the system message (lines 53-58). -/
def baseSystemMsg : String :=
  "You are a helpful assistant. If the user asks something that can be answered using a tool, respond with a tool call using the format:\n[TOOL_CALL: tool_name \x7b\"arg1\": \"value1\", \"arg2\": \"value2\"\x7d]\nAlways choose to use a tool if it is available, and do not ask the user follow-up questions first."

/-- Rendered line for one tool (line 62-63): its name, description, and the
comma-joined `name: type` rendering of its input-schema properties. -/
def toolLine (t : Tool) : String :=
  "- " ++ t.name ++ ": " ++ t.description ++ " (Inputs: " ++
    String.intercalate (", ") (t.input_schema.map (fun kv => kv.1 ++ ": " ++ kv.2)) ++ ")\n"

/-- Header of the tool block (line 60). -/
def toolInfoHeader : String := "\nAvailable tools and their input schemas:\n"

/-- Tool block accumulation, `tool_info += f"- ..."` over the tool list. -/
def toolInfo (ts : List Tool) : String :=
  ts.foldl (fun acc t => acc ++ toolLine t) toolInfoHeader

/-- System message content: the tool block is appended only when
`available_tools` is truthy in Python (`if available_tools:`), i.e. a
supplied, nonempty list. -/
def systemMsg : Option (List Tool) → String
  | none => baseSystemMsg
  | some ts => if ts.isEmpty then baseSystemMsg else baseSystemMsg ++ "\n" ++ toolInfo ts

/-- Message list sent to the model (line 66): the system message prepended to
the running history. -/
def openai_chat_messages (messages : List Message) (available_tools : Option (List Tool)) :
    List Message :=
  ⟨"system", systemMsg available_tools⟩ :: messages

/-- External collaborators of the loop, as deterministic oracles:
`tools` is the catalog returned by `session.list_tools()` for this query
(already shaped as in lines 81-85); `complete` is the model capability
(`openai.ChatCompletion.acreate` + first choice content), which may raise;
`callTool` is `session.call_tool(name, args)`, which may raise; `jsonLoads`
is Python's `json.loads`, `none` meaning it raised. -/
structure Env where
  tools : List Tool
  complete : List Message → Except String String
  callTool : String → Json → Except String ToolResult
  jsonLoads : String → Option Json

/-- Argument decoding of lines 104-108: `json.loads(tool_args_str)`, with the
empty dict substituted when decoding raises. -/
def decodeArgs (env : Env) (s : String) : Json :=
  match env.jsonLoads s with
  | some v => v
  | none => Json.obj []

/-- Assistant-role marker appended after a tool execution (line 114). -/
def assistantMarker (tool_name : String) : Message :=
  ⟨"assistant", "[Tool " ++ tool_name ++ " executed]"⟩

/-- Body of the `for tool_name, tool_args_str in matches:` loop
(lines 102-119), with the dispatched tool calls recorded as a trace.
Each directive: decode arguments (empty dict on failure), dispatch
`session.call_tool` (an exception aborts the whole query), append the
assistant marker and the stringified result to the history, request a
follow-up completion with no catalog, and append it to `final_text`.
Returns the trace of dispatched `(name, args)` calls together with either the
raised exception or the final `final_text` and history. -/
def runDirectives (env : Env) :
    List (String × String) → List Message → List String →
      List (String × Json) × Except String (List String × List Message)
  | [], messages, finalText => ([], Except.ok (finalText, messages))
  | (tool_name, tool_args_str) :: rest, messages, finalText =>
    let args := decodeArgs env tool_args_str
    match env.callTool tool_name args with
    | Except.error e => ([(tool_name, args)], Except.error e)
    | Except.ok result =>
      let messages' := messages ++ [assistantMarker tool_name, ⟨"user", result.content⟩]
      match env.complete (openai_chat_messages messages' none) with
      | Except.error e => ([(tool_name, args)], Except.error e)
      | Except.ok followup =>
        let out := runDirectives env rest messages' (finalText ++ [followup])
        ((tool_name, args) :: out.1, out.2)

/-- Instrumented `process_query` (lines 76-121): seed the history with the
user query, request the initial completion with the catalog, parse it for
directives, run the directive loop.  Returns the dispatched-call trace and
either the raised exception or the `final_text` segments and final history. -/
def process_query_run (env : Env) (query : String) :
    List (String × Json) × Except String (List String × List Message) :=
  let messages : List Message := [⟨"user", query⟩]
  match env.complete (openai_chat_messages messages (some env.tools)) with
  | Except.error e => ([], Except.error e)
  | Except.ok text_response =>
    runDirectives env (findall text_response.toList) messages [text_response]

/-- Observable result of `process_query`: the newline-joined `final_text`
(line 121), or the exception that aborted the query. -/
def process_query (env : Env) (query : String) : Except String String :=
  match (process_query_run env query).2 with
  | Except.ok (finalText, _) => Except.ok (String.intercalate ("\n") finalText)
  | Except.error e => Except.error e

/-- Python whitespace for `str.strip()`. -/
def isSpaceChar (c : Char) : Bool :=
  c = ' ' || c = '\t' || c = '\n' || c = '\r' || c = '\x0b' || c = '\x0c'

/-- Python `str.strip()`. -/
def pyStrip (s : String) : String :=
  ⟨((s.toList.dropWhile isSpaceChar).reverse.dropWhile isSpaceChar).reverse⟩

/-- Lowercase one character, ASCII range of Python `str.lower()`. -/
def lowerChar (c : Char) : Char :=
  if 'A' ≤ c ∧ c ≤ 'Z' then Char.ofNat (c.toNat + 32) else c

/-- Python `str.lower()` (ASCII range). -/
def pyLower (s : String) : String := ⟨s.toList.map lowerChar⟩

/-- Interactive loop `chat_loop` (lines 123-135) over a finite queue of input
lines: strip the line, stop on `quit` (case-insensitive), otherwise run
`process_query` inside `try`/`except`, printing either the response or
`Error: ...`, and loop.  Returns the list of printed outputs. -/
def chat_loop (env : Env) : List String → List String
  | [] => []
  | q :: rest =>
    let query := pyStrip q
    if pyLower query = "quit" then []
    else
      match process_query env query with
      | Except.ok response => ("\n" ++ response) :: chat_loop env rest
      | Except.error e => ("\nError: " ++ e) :: chat_loop env rest

/-!
Specification helpers: pure descriptions of what one successful loop
iteration appends to the history and to the transcript, used to state the
shape theorems below.  `contentOf` and `followupOf` read the oracles at the
same inputs the loop uses, so on a successful run they coincide with the
values the loop obtained.
-/

/-- Stringified content of the tool result for one directive (when the call
succeeds; the fallback branch is never reached on a successful run). -/
def contentOf (env : Env) (d : String × String) : String :=
  match env.callTool d.1 (decodeArgs env d.2) with
  | Except.ok r => r.content
  | Except.error _ => ""

/-- Two history entries appended for one executed directive (lines 114-115):
the assistant marker, then the user-role message with the result content. -/
def pairOf (env : Env) (d : String × String) : List Message :=
  [assistantMarker d.1, ⟨"user", contentOf env d⟩]

/-- History after executing a list of directives in order. -/
def historySpec (env : Env) (msgs : List Message) : List (String × String) → List Message
  | [] => msgs
  | d :: ds => historySpec env (msgs ++ pairOf env d) ds

/-- Follow-up completion requested after one executed directive (line 117):
the prompt is built with no catalog. -/
def followupOf (env : Env) (msgs : List Message) (d : String × String) : String :=
  match env.complete (openai_chat_messages (msgs ++ pairOf env d) none) with
  | Except.ok f => f
  | Except.error _ => ""

/-- Follow-up segments appended to the transcript, one per directive, in
directive order, each computed against the history current at its turn. -/
def followupsSpec (env : Env) (msgs : List Message) : List (String × String) → List String
  | [] => []
  | d :: ds => followupOf env msgs d :: followupsSpec env (msgs ++ pairOf env d) ds

/-!
Concrete fixtures: a small catalog, model responses, and oracle environments
used to evaluate the theorems on closed inputs.
-/

/-- Sample tool descriptor. -/
def wTool : Tool := ⟨"get_weather", "Look up current weather", [("city", "string")]⟩

/-- Sample user query. -/
def wQuery : String := "hi"

/-- Model response containing three well-formed directives, none of whose
names appear in the catalog. -/
def wResp : String :=
  "[TOOL_CALL: alpha \x7b\x7d] and [TOOL_CALL: beta \x7b\x7d] and [TOOL_CALL: gamma \x7b\x7d]"

/-- Model response containing no directive token. -/
def wPlain : String := "Paris is the capital of France."

/-- Model response whose only directive token has a newline inside its
payload, before the closing bracket. -/
def wMultiline : String := "a [TOOL_CALL: f \x7b\n\"x\": 1\x7d] b"

/-- Parser example from the specification. -/
def exampleText : String := "Sure! [TOOL_CALL: get_weather \x7b\"city\": \"Paris\"\x7d]"

/-- Environment in which every capability succeeds: the model always answers
`wResp`, every tool call returns content `42`, and JSON decoding always
fails (so every directive falls back to the empty mapping). -/
def wEnvOk : Env :=
  ⟨[wTool], fun _ => Except.ok wResp, fun _ _ => Except.ok ⟨"42"⟩, fun _ => none⟩

/-- Environment whose tool capability fails on the second directive `beta`. -/
def wEnvFail : Env :=
  ⟨[wTool], fun _ => Except.ok wResp,
    fun n _ => if n = "beta" then Except.error ("boom") else Except.ok ⟨"42"⟩,
    fun _ => none⟩

/-- Environment whose model response contains no directive. -/
def wEnvNone : Env :=
  ⟨[wTool], fun _ => Except.ok wPlain, fun _ _ => Except.ok ⟨"42"⟩, fun _ => none⟩

/-- Environment whose JSON decoder returns a non-object value (a bare
string) for every payload. -/
def wEnvJson : Env :=
  ⟨[wTool], fun _ => Except.ok wResp, fun _ _ => Except.ok ⟨"42"⟩,
    fun _ => some (Json.str ("hello"))⟩

/-- Dispatched calls of the successful run `process_query_run wEnvOk wQuery`. -/
def wCalls : List (String × Json) :=
  [("alpha", Json.obj []), ("beta", Json.obj []), ("gamma", Json.obj [])]

/-- Transcript segments of the successful run. -/
def wSegs : List String := [wResp, wResp, wResp, wResp]

/-- Final history of the successful run. -/
def wHist : List Message :=
  [⟨"user", wQuery⟩, assistantMarker ("alpha"), ⟨"user", "42"⟩,
   assistantMarker ("beta"), ⟨"user", "42"⟩, assistantMarker ("gamma"), ⟨"user", "42"⟩]

/-- Dispatched calls of the run under `wEnvJson`: each directive's payload
decodes to the non-object value `Json.str "hello"`. -/
def wCallsJ : List (String × Json) :=
  [("alpha", Json.str ("hello")), ("beta", Json.str ("hello")), ("gamma", Json.str ("hello"))]

/-!
Helper lemmas about the parser and the directive loop.
-/

/-- Payload characters accepted by the non-greedy scan are never newlines. -/
theorem scanPayload_no_newline :
    ∀ (rest : List Char) (first : Char) (p r : List Char),
      scanPayload first rest = some (p, r) → '\n' ∉ p := by
  intro rest
  induction rest with
  | nil =>
    intro first p r h
    by_cases hf : first = '\n' <;> simp [scanPayload, hf] at h
  | cons c cs ih =>
    intro first p r h
    by_cases hf : first = '\n'
    · simp [scanPayload, hf] at h
    · by_cases hc : c = ']'
      · simp [scanPayload, hf, hc] at h
        obtain ⟨hp, _⟩ := h
        subst hp
        simp
        intro hcontra
        exact hf hcontra.symm
      · simp [scanPayload, hf, hc] at h
        cases hsc : scanPayload c cs with
        | none => rw [hsc] at h; simp at h
        | some pr =>
          rw [hsc] at h
          simp at h
          obtain ⟨hp, _⟩ := h
          subst hp
          simp
          constructor
          · intro hcontra; exact hf hcontra.symm
          · exact ih c pr.1 pr.2 (by rw [hsc])

/-- Characters of the captured `\w+` run are word characters. -/
theorem takeWord_word : ∀ (cs : List Char), ∀ c ∈ (takeWord cs).1, isWordChar c := by
  intro cs
  induction cs with
  | nil => simp [takeWord]
  | cons c cs ih =>
    by_cases hw : isWordChar c
    · simp [takeWord, hw]
      intro x hx
      exact ih x hx
    · simp [takeWord, hw]

/-- A successful match captures a newline-free name and payload. -/
theorem matchAt_no_newline (cs : List Char) (n a : String) (rest : List Char) :
    matchAt cs = some (n, a, rest) → '\n' ∉ n.toList ∧ '\n' ∉ a.toList := by
  intro h
  unfold matchAt at h
  cases hs : stripLit headerChars cs with
  | none => rw [hs] at h; simp at h
  | some r1 =>
    rw [hs] at h
    simp at h
    by_cases hw : (takeWord r1).1 = []
    · simp [hw] at h
    · simp [hw] at h
      cases hr2 : (takeWord r1).2 with
      | nil => rw [hr2] at h; simp at h
      | cons c r3 =>
        rw [hr2] at h
        by_cases hsp : c = ' '
        · subst hsp
          cases r3 with
          | nil => simp at h
          | cons c0 r4 =>
            simp at h
            cases hscan : scanPayload c0 r4 with
            | none => rw [hscan] at h; simp at h
            | some pr =>
              rw [hscan] at h
              simp at h
              obtain ⟨hn, ha, _⟩ := h
              subst hn; subst ha
              constructor
              · intro hmem
                have := takeWord_word r1 '\n' hmem
                simp [isWordChar, Char.isAlphanum, Char.isAlpha, Char.isDigit] at this
              · exact scanPayload_no_newline r4 c0 pr.1 pr.2 (by rw [hscan])
        · simp [hsp] at h

/-- Every directive the fuelled scanner extracts is newline-free. -/
theorem findallFuel_no_newline :
    ∀ (fuel : Nat) (cs : List Char) (n a : String),
      (n, a) ∈ findallFuel fuel cs → '\n' ∉ n.toList ∧ '\n' ∉ a.toList := by
  intro fuel
  induction fuel with
  | zero => intro cs n a h; simp [findallFuel] at h
  | succ fuel ih =>
    intro cs n a h
    cases cs with
    | nil => simp [findallFuel] at h
    | cons c cs =>
      rw [findallFuel] at h
      cases hm : matchAt (c :: cs) with
      | none => rw [hm] at h; exact ih cs n a h
      | some t =>
        rw [hm] at h
        simp at h
        rcases h with h | h
        · obtain ⟨hn, ha⟩ := h
          subst hn; subst ha
          exact matchAt_no_newline (c :: cs) t.1 t.2.1 t.2.2 (by rw [hm])
        · exact ih t.2.2 n a h

/-- Every directive `findall` extracts is newline-free: the matcher does not
span line breaks. -/
theorem findall_no_newline (cs : List Char) (n a : String) :
    (n, a) ∈ findall cs → '\n' ∉ n.toList ∧ '\n' ∉ a.toList :=
  findallFuel_no_newline cs.length cs n a

/-- Specified follow-up list has one entry per directive. -/
theorem followupsSpec_length (env : Env) :
    ∀ (ds : List (String × String)) (msgs : List Message),
      (followupsSpec env msgs ds).length = ds.length := by
  intro ds
  induction ds with
  | nil => intro msgs; rfl
  | cons d ds ih => intro msgs; simp [followupsSpec, ih]

/-- Specified history is the seed followed by the per-directive two-entry
blocks, in directive order. -/
theorem historySpec_append (env : Env) :
    ∀ (ds : List (String × String)) (msgs : List Message),
      historySpec env msgs ds = msgs ++ (ds.map (pairOf env)).flatten := by
  intro ds
  induction ds with
  | nil => intro msgs; simp [historySpec]
  | cons d ds ih => intro msgs; simp [historySpec, ih]

/-- Shape of a successful directive loop: the trace lists every directive in
parse order with its decoded (or defaulted) arguments; the transcript extends
the accumulator with exactly the specified follow-ups; the final history is
the specified one; and every directive's tool call succeeded. -/
theorem runDirectives_ok (env : Env) :
    ∀ (ds : List (String × String)) (msgs : List Message) (acc : List String)
      (calls : List (String × Json)) (finalText : List String) (m' : List Message),
      runDirectives env ds msgs acc = (calls, Except.ok (finalText, m')) →
        calls = ds.map (fun d => (d.1, decodeArgs env d.2)) ∧
        finalText = acc ++ followupsSpec env msgs ds ∧
        m' = historySpec env msgs ds ∧
        ∀ d ∈ ds, ∃ r, env.callTool d.1 (decodeArgs env d.2) = Except.ok r ∧
          contentOf env d = r.content := by
  intro ds
  induction ds with
  | nil =>
    intro msgs acc calls finalText m' h
    simp [runDirectives] at h
    obtain ⟨hc, hf, hm⟩ := h
    simp [hc.symm, hf.symm, hm.symm, followupsSpec, historySpec]
  | cons d ds ih =>
    intro msgs acc calls finalText m' h
    obtain ⟨tool_name, tool_args_str⟩ := d
    rw [runDirectives] at h
    cases hcall : env.callTool tool_name (decodeArgs env tool_args_str) with
    | error e => rw [hcall] at h; simp at h
    | ok result =>
      rw [hcall] at h
      simp only at h
      cases hcomp : env.complete (openai_chat_messages
          (msgs ++ [assistantMarker tool_name, ⟨"user", result.content⟩]) none) with
      | error e => rw [hcomp] at h; simp at h
      | ok followup =>
        rw [hcomp] at h
        simp only at h
        cases hrec : runDirectives env ds
            (msgs ++ [assistantMarker tool_name, ⟨"user", result.content⟩])
            (acc ++ [followup]) with
        | mk calls' out =>
          rw [hrec] at h
          cases out with
          | error e => simp at h
          | ok p =>
            obtain ⟨finalText', m''⟩ := p
            simp at h
            obtain ⟨hcalls, hf, hm⟩ := h
            have := ih (msgs ++ [assistantMarker tool_name, ⟨"user", result.content⟩])
              (acc ++ [followup]) calls' finalText' m'' hrec
            obtain ⟨ihc, ihf, ihm, ihall⟩ := this
            have hcontent : contentOf env (tool_name, tool_args_str) = result.content := by
              simp [contentOf, hcall]
            have hpair : pairOf env (tool_name, tool_args_str) =
                [assistantMarker tool_name, ⟨"user", result.content⟩] := by
              simp [pairOf, hcontent]
            refine ⟨?_, ?_, ?_, ?_⟩
            · rw [← hcalls, ihc]; rfl
            · rw [← hf, ihf]
              simp [followupsSpec, hpair, followupOf, hcomp]
            · rw [← hm, ihm]
              simp [historySpec, hpair]
            · intro d hd
              rcases List.mem_cons.mp hd with hd | hd
              · subst hd
                exact ⟨result, by rw [hcall], hcontent⟩
              · exact ihall d hd

/-- Any exception escaping the directive loop originates in a capability:
the model call or the tool call — never in argument decoding. -/
theorem runDirectives_error (env : Env) :
    ∀ (ds : List (String × String)) (msgs : List Message) (acc : List String)
      (calls : List (String × Json)) (e : String),
      runDirectives env ds msgs acc = (calls, Except.error e) →
        (∃ ms, env.complete ms = Except.error e) ∨
        (∃ n args, env.callTool n args = Except.error e) := by
  intro ds
  induction ds with
  | nil => intro msgs acc calls e h; simp [runDirectives] at h
  | cons d ds ih =>
    intro msgs acc calls e h
    obtain ⟨tool_name, tool_args_str⟩ := d
    rw [runDirectives] at h
    cases hcall : env.callTool tool_name (decodeArgs env tool_args_str) with
    | error e' =>
      rw [hcall] at h
      simp at h
      exact Or.inr ⟨tool_name, decodeArgs env tool_args_str, by rw [hcall, h.2]⟩
    | ok result =>
      rw [hcall] at h
      simp only at h
      cases hcomp : env.complete (openai_chat_messages
          (msgs ++ [assistantMarker tool_name, ⟨"user", result.content⟩]) none) with
      | error e' =>
        rw [hcomp] at h
        simp at h
        exact Or.inl ⟨_, by rw [hcomp, h.2]⟩
      | ok followup =>
        rw [hcomp] at h
        simp only at h
        cases hrec : runDirectives env ds
            (msgs ++ [assistantMarker tool_name, ⟨"user", result.content⟩])
            (acc ++ [followup]) with
        | mk calls' out =>
          rw [hrec] at h
          cases out with
          | error e' =>
            have he : e' = e := by
              have := congrArg Prod.snd h
              simpa using this
            exact ih _ _ calls' e (he ▸ hrec)
          | ok p => simp at h

/-- Tool-block accumulation flattens to the header followed by the rendered
lines, in catalog order. -/
theorem foldl_toolLine (ts : List Tool) :
    ∀ (init : String), (ts.foldl (fun acc t => acc ++ toolLine t) init).toList =
      init.toList ++ (ts.map (fun t => (toolLine t).toList)).flatten := by
  induction ts with
  | nil => intro init; simp
  | cons t ts ih =>
    intro init
    simp only [List.foldl_cons, List.map_cons, List.flatten_cons]
    rw [ih]
    simp [String.data_append]

/-!
Claim theorems.
-/

/-- C1: when the model's initial response parses to k directive tokens and the
query runs to completion, `process_query` returns the newline-join of exactly
k+1 segments: the initial response first, then one follow-up model response
per directive, each computed against the history current at its turn, in the
left-to-right order of the directives; and the dispatched-call trace equals
the parse result in parse order (dispatch order = parse order). -/
theorem process_query_transcript_shape (env : Env) (q resp : String)
    (calls : List (String × Json)) (segs : List String) (m : List Message)
    (hresp : env.complete (openai_chat_messages [⟨"user", q⟩] (some env.tools)) =
      Except.ok resp)
    (hrun : process_query_run env q = (calls, Except.ok (segs, m))) :
    segs = resp :: followupsSpec env [⟨"user", q⟩] (findall resp.toList) ∧
    segs.length = (findall resp.toList).length + 1 ∧
    calls = (findall resp.toList).map (fun d => (d.1, decodeArgs env d.2)) ∧
    process_query env q = Except.ok (String.intercalate ("\n") segs) := by
  have hrun0 := hrun
  simp only [process_query_run, hresp] at hrun
  obtain ⟨hcalls, hsegs, _, _⟩ := runDirectives_ok env _ _ _ _ _ _ hrun
  refine ⟨by simpa using hsegs, ?_, hcalls, ?_⟩
  · rw [hsegs]
    simp [followupsSpec_length]
  · simp [process_query, hrun0]

/-- C2: malformed argument JSON is never fatal.  On a successful run the
dispatch trace is exactly the parse result in parse order, every directive
whose payload fails to decode is dispatched with the empty mapping
`Json.obj []`, all other directives' arguments are unaffected, and the
transcript is still complete (k+1 segments); and any exception escaping the
query originates in the model or tool capability, never in argument
decoding. -/
theorem bad_json_nonfatal (env : Env) (q resp : String)
    (hresp : env.complete (openai_chat_messages [⟨"user", q⟩] (some env.tools)) =
      Except.ok resp) :
    (∀ calls segs m, process_query_run env q = (calls, Except.ok (segs, m)) →
      calls = (findall resp.toList).map (fun d => (d.1, decodeArgs env d.2)) ∧
      segs.length = (findall resp.toList).length + 1 ∧
      ∀ d ∈ findall resp.toList, env.jsonLoads d.2 = none →
        (d.1, Json.obj []) ∈ calls) ∧
    (∀ calls e, process_query_run env q = (calls, Except.error e) →
      (∃ ms, env.complete ms = Except.error e) ∨
      (∃ n args, env.callTool n args = Except.error e)) := by
  constructor
  · intro calls segs m hrun
    simp only [process_query_run, hresp] at hrun
    obtain ⟨hcalls, hsegs, _, _⟩ := runDirectives_ok env _ _ _ _ _ _ hrun
    refine ⟨hcalls, by rw [hsegs]; simp [followupsSpec_length], ?_⟩
    intro d hd hnone
    rw [hcalls]
    have hmem : (d.1, decodeArgs env d.2) ∈
        (findall resp.toList).map (fun d => (d.1, decodeArgs env d.2)) :=
      List.mem_map_of_mem _ hd
    simpa [decodeArgs, hnone] using hmem
  · intro calls e hrun
    simp only [process_query_run, hresp] at hrun
    exact runDirectives_error env _ _ _ _ _ hrun

/-- C3: a failing `call_tool` on any directive — here the second of two or
more — is terminal for the whole query: the failing directive is dispatched,
no later directive is dispatched, `process_query` yields the exception
rather than any (partial) transcript, and the interactive loop catches it,
prints `Error: ...`, and goes on to process the next queued query. -/
theorem tool_failure_terminal (env : Env) (q resp : String)
    (n1 s1 n2 s2 : String) (rest : List (String × String))
    (r1 : ToolResult) (f1 e : String) (qs : List String)
    (hresp : env.complete (openai_chat_messages [⟨"user", q⟩] (some env.tools)) =
      Except.ok resp)
    (hds : findall resp.toList = (n1, s1) :: (n2, s2) :: rest)
    (h1 : env.callTool n1 (decodeArgs env s1) = Except.ok r1)
    (hf1 : env.complete (openai_chat_messages
      [⟨"user", q⟩, assistantMarker n1, ⟨"user", r1.content⟩] none) = Except.ok f1)
    (h2 : env.callTool n2 (decodeArgs env s2) = Except.error e)
    (hq : pyStrip q = q) (hquit : pyLower q ≠ "quit") :
    process_query_run env q =
      ([(n1, decodeArgs env s1), (n2, decodeArgs env s2)], Except.error e) ∧
    process_query env q = Except.error e ∧
    chat_loop env (q :: qs) = ("\nError: " ++ e) :: chat_loop env qs := by
  have hrun : process_query_run env q =
      ([(n1, decodeArgs env s1), (n2, decodeArgs env s2)], Except.error e) := by
    simp only [process_query_run, hresp]
    rw [hds]
    simp only [runDirectives, h1, List.cons_append, List.nil_append, hf1, h2]
  have hpq : process_query env q = Except.error e := by
    simp [process_query, hrun]
  refine ⟨hrun, hpq, ?_⟩
  rw [chat_loop, hq]
  simp [hquit, hpq]

/-- C4: when the initial model response contains no directive token,
`process_query` returns exactly that response, unchanged — a one-segment
transcript. -/
theorem process_query_no_directives (env : Env) (q resp : String)
    (hresp : env.complete (openai_chat_messages [⟨"user", q⟩] (some env.tools)) =
      Except.ok resp)
    (hempty : findall resp.toList = []) :
    process_query env q = Except.ok resp := by
  have hone : String.intercalate ("\n") [resp] = resp := rfl
  have hempty' : findall resp.data = [] := hempty
  simp [process_query, process_query_run, hresp, hempty, hempty', runDirectives, hone]

/-- C5: the parser recognizes the literal token shape
`[TOOL_CALL: <name> <payload>]`; the specification's example input parses to
exactly one directive with name `get_weather` and raw argument text
`{"city": "Paris"}`. -/
theorem parse_example_get_weather :
    findall exampleText.toList = [("get_weather", "\x7b\"city\": \"Paris\"\x7d")] := by
  decide

/-- C6: every directive extracted from the initial response is dispatched to
the session's call-tool operation: nothing in the statement constrains the
directive names against `env.tools`, so a directive naming a tool absent from
the catalog is dispatched all the same (no filtering by the parser or the
loop). -/
theorem directives_dispatched_unfiltered (env : Env) (q resp : String)
    (calls : List (String × Json)) (segs : List String) (m : List Message)
    (hresp : env.complete (openai_chat_messages [⟨"user", q⟩] (some env.tools)) =
      Except.ok resp)
    (hrun : process_query_run env q = (calls, Except.ok (segs, m))) :
    ∀ d ∈ findall resp.toList, (d.1, decodeArgs env d.2) ∈ calls := by
  simp only [process_query_run, hresp] at hrun
  obtain ⟨hcalls, _, _, _⟩ := runDirectives_ok env _ _ _ _ _ _ hrun
  intro d hd
  rw [hcalls]
  exact List.mem_map_of_mem _ hd

set_option maxRecDepth 1000000 in
/-- C7: the prompt builder prepends exactly one system message before the
history; with a null/omitted catalog (as in every follow-up call) the system
message is the bare instruction text, which contains no tool block; and with
a supplied catalog the system message contains, for each tool, its rendered
line (name, description, comma-joined `name: type` schema rendering). -/
theorem prompt_builder_system_message :
    (∀ (messages : List Message) (cat : Option (List Tool)),
      openai_chat_messages messages cat = ⟨"system", systemMsg cat⟩ :: messages) ∧
    (systemMsg none = baseSystemMsg ∧
      ¬ toolInfoHeader.toList <:+: baseSystemMsg.toList) ∧
    (∀ (ts : List Tool), ∀ t ∈ ts,
      (toolLine t).toList <:+: (systemMsg (some ts)).toList) := by
  refine ⟨fun messages cat => rfl, ⟨rfl, by decide⟩, ?_⟩
  intro ts t ht
  obtain ⟨l1, l2, rfl⟩ := List.append_of_mem ht
  have hne : (l1 ++ t :: l2 : List Tool).isEmpty = false := by simp
  have hsplit : (baseSystemMsg ++ "\n" ++ toolInfo (l1 ++ t :: l2)).toList =
      (baseSystemMsg ++ "\n").toList ++ (toolInfo (l1 ++ t :: l2)).toList :=
    String.data_append _ _
  have hsys : (systemMsg (some (l1 ++ t :: l2))).toList =
      (baseSystemMsg ++ "\n").toList ++ toolInfoHeader.toList ++
        ((l1 ++ t :: l2).map (fun u => (toolLine u).toList)).flatten := by
    simp only [systemMsg, hne, Bool.false_eq_true, if_false]
    rw [hsplit]
    rw [show (toolInfo (l1 ++ t :: l2)).toList =
      toolInfoHeader.toList ++
        ((l1 ++ t :: l2).map (fun u => (toolLine u).toList)).flatten from
      foldl_toolLine _ _]
    simp [List.append_assoc]
  refine ⟨(baseSystemMsg ++ "\n").toList ++ toolInfoHeader.toList ++
      (l1.map (fun u => (toolLine u).toList)).flatten,
    (l2.map (fun u => (toolLine u).toList)).flatten, ?_⟩
  rw [hsys]
  simp [List.append_assoc]

/-- C8: within one query the history starts as the single user message
holding the query and is only appended to: on a successful run the final
history is that seed followed by, per executed directive in order, exactly
the two entries `[assistant marker, user-role stringified tool result]`, and
every executed directive's tool call indeed returned the recorded content. -/
theorem history_append_only (env : Env) (q resp : String)
    (calls : List (String × Json)) (segs : List String) (m : List Message)
    (hresp : env.complete (openai_chat_messages [⟨"user", q⟩] (some env.tools)) =
      Except.ok resp)
    (hrun : process_query_run env q = (calls, Except.ok (segs, m))) :
    m = ⟨"user", q⟩ :: ((findall resp.toList).map (pairOf env)).flatten ∧
    (∀ d, pairOf env d = [assistantMarker d.1, ⟨"user", contentOf env d⟩]) ∧
    (∀ d ∈ findall resp.toList, ∃ r,
      env.callTool d.1 (decodeArgs env d.2) = Except.ok r ∧
        contentOf env d = r.content) := by
  simp only [process_query_run, hresp] at hrun
  obtain ⟨_, _, hm, hall⟩ := runDirectives_ok env _ _ _ _ _ _ hrun
  refine ⟨?_, fun d => rfl, hall⟩
  rw [hm, historySpec_append]
  simp

/-- C9: the directive matcher does not span line breaks: every extracted
directive has a newline-free name and payload, and a token whose payload
contains a newline before the closing bracket yields no directive at all
(shown on a concrete input), hence neither a dispatch nor a follow-up
segment. -/
theorem directive_single_line :
    (∀ (cs : List Char) (n a : String),
      (n, a) ∈ findall cs → '\n' ∉ n.toList ∧ '\n' ∉ a.toList) ∧
    findall wMultiline.toList = [] := by
  exact ⟨fun cs n a h => findall_no_newline cs n a h, by decide⟩

/-- C10: a directive whose payload decodes to some JSON value is dispatched
with exactly that value, whatever its shape — no object check, no
substitution: the i-th dispatched call carries the decoded value of the i-th
parsed directive verbatim. -/
theorem nonobject_args_passed_verbatim (env : Env) (q resp : String)
    (calls : List (String × Json)) (segs : List String) (m : List Message)
    (i : Nat) (n s : String) (v : Json)
    (hresp : env.complete (openai_chat_messages [⟨"user", q⟩] (some env.tools)) =
      Except.ok resp)
    (hrun : process_query_run env q = (calls, Except.ok (segs, m)))
    (hd : (findall resp.toList)[i]? = some (n, s))
    (hv : env.jsonLoads s = some v) :
    calls[i]? = some (n, v) := by
  simp only [process_query_run, hresp] at hrun
  obtain ⟨hcalls, _, _, _⟩ := runDirectives_ok env _ _ _ _ _ _ hrun
  rw [hcalls, List.getElem?_map, hd]
  simp [decodeArgs, hv]

/-!
Witnesses: each hypothesis-bearing claim theorem evaluated at a concrete
environment and query.
-/

set_option maxRecDepth 400000 in
/-- Witness for C1 at `wEnvOk`: four segments for three directives. -/
theorem process_query_transcript_shape_witness :
    wSegs.length = (findall wResp.toList).length + 1 ∧
    process_query wEnvOk wQuery = Except.ok (String.intercalate ("\n") wSegs) := by
  have h := process_query_transcript_shape wEnvOk wQuery wResp wCalls wSegs wHist rfl rfl
  exact ⟨h.2.1, h.2.2.2⟩

set_option maxRecDepth 400000 in
/-- Witness for C2 at `wEnvOk`, whose decoder fails on every payload: the
first directive is still dispatched, with the empty mapping. -/
theorem bad_json_nonfatal_witness : ("alpha", Json.obj []) ∈ wCalls := by
  have h := (bad_json_nonfatal wEnvOk wQuery wResp rfl).1 wCalls wSegs wHist rfl
  exact h.2.2 ("alpha", "\x7b\x7d") (by decide) rfl

set_option maxRecDepth 400000 in
/-- Witness for C3 at `wEnvFail`, whose tool capability fails on `beta`. -/
theorem tool_failure_terminal_witness :
    process_query wEnvFail wQuery = Except.error ("boom") := by
  have h := tool_failure_terminal wEnvFail wQuery wResp
    ("alpha") ("\x7b\x7d") ("beta") ("\x7b\x7d") ([("gamma", "\x7b\x7d")])
    ⟨"42"⟩ wResp ("boom") ([]) rfl (by decide) rfl rfl rfl rfl (by decide)
  exact h.2.1

/-- Witness for C4 at `wEnvNone`, whose model response has no directive. -/
theorem process_query_no_directives_witness :
    process_query wEnvNone wQuery = Except.ok wPlain :=
  process_query_no_directives wEnvNone wQuery wPlain rfl (by decide)

set_option maxRecDepth 400000 in
/-- Witness for C6 at `wEnvOk`: `beta` is not in the catalog (which holds
only `get_weather`) and is dispatched nonetheless. -/
theorem directives_dispatched_unfiltered_witness :
    ("beta", Json.obj []) ∈ wCalls := by
  have h := directives_dispatched_unfiltered wEnvOk wQuery wResp wCalls wSegs wHist rfl rfl
  exact h ("beta", "\x7b\x7d") (by decide)

/-- Witness for C7: the rendered line of `wTool` occurs in the system message
built from the one-tool catalog. -/
theorem prompt_builder_system_message_witness :
    (toolLine wTool).toList <:+: (systemMsg (some [wTool])).toList :=
  prompt_builder_system_message.2.2 [wTool] wTool (by simp)

/-- Witness for C9: the payload extracted from the example text is
newline-free. -/
theorem directive_single_line_witness :
    '\n' ∉ ("\x7b\"city\": \"Paris\"\x7d" : String).toList :=
  (directive_single_line.1 exampleText.toList ("get_weather")
    ("\x7b\"city\": \"Paris\"\x7d") (by decide)).2

set_option maxRecDepth 400000 in
/-- Witness for C10 at `wEnvJson`, whose decoder yields the non-object value
`Json.str "hello"`: the first dispatched call carries it verbatim. -/
theorem nonobject_args_passed_verbatim_witness :
    wCallsJ[0]? = some ("alpha", Json.str ("hello")) :=
  nonobject_args_passed_verbatim wEnvJson wQuery wResp wCallsJ wSegs wHist 0
    ("alpha") ("\x7b\x7d") (Json.str ("hello")) rfl rfl (by decide) rfl

set_option maxRecDepth 400000 in
/-- Witness for C8 at `wEnvOk`: the final history is the seeded user message
followed by the three two-entry blocks. -/
theorem history_append_only_witness :
    wHist = ⟨"user", wQuery⟩ :: ((findall wResp.toList).map (pairOf wEnvOk)).flatten :=
  (history_append_only wEnvOk wQuery wResp wCalls wSegs wHist rfl rfl).1

end MCPClient
